import Mathlib

/-!
Verification of `src/trading_lib/trading_environment.py`.

The Python code is shallowly embedded over exact rationals.  Pandas series
become `List ℚ` (or `List (Option ℚ)` where NaN entries matter); Python
floats that may be non-finite become the `PyFloat` type; heterogeneous
Python values in parameter grids become `PyVal`/`PyObj`; code that can
raise becomes `Except String`.
-/

namespace TradingEnv

/-- A Python float: either an exact finite value, an infinity, or NaN. -/
inductive PyFloat where
  | finite (q : ℚ)
  | inf
  | neginf
  | nan
deriving Repr, DecidableEq

/-- `np.isnan` on a scalar. -/
def PyFloat.isnanB : PyFloat → Bool
  | .nan => true
  | _ => false

/-- `np.isfinite` on a scalar. -/
def PyFloat.isFiniteB : PyFloat → Bool
  | .finite _ => true
  | _ => false

/-- A value stored in a parameter grid (`Optimizer.param_grid`): a Python
int, a (finite) float produced by `range`/`np.linspace`/`choices`, or a
non-numeric choice such as a string. -/
inductive PyVal where
  | pint (n : ℤ)
  | pfloat (q : ℚ)
  | pstr (s : String)
deriving Repr, DecidableEq

/-- `isinstance(v, (int, float))`. -/
def PyVal.isNumericB : PyVal → Bool
  | .pint _ => true
  | .pfloat _ => true
  | .pstr _ => false

/-- `isinstance(v, int)`. -/
def PyVal.isIntB : PyVal → Bool
  | .pint _ => true
  | _ => false

/-- Numeric value of a grid entry (junk 0 on non-numeric entries; only
applied to entries that passed `isNumericB`). -/
def PyVal.toQ : PyVal → ℚ
  | .pint n => (n : ℚ)
  | .pfloat q => q
  | .pstr _ => 0

/-- A runtime Python value handed to a strategy constructor after decoding:
int, float (possibly non-finite), or string. -/
inductive PyObj where
  | oint (n : ℤ)
  | ofloat (x : PyFloat)
  | ostr (s : String)
deriving Repr, DecidableEq

/-- Injection of grid values into runtime values. -/
def PyVal.toObj : PyVal → PyObj
  | .pint n => .oint n
  | .pfloat q => .ofloat (.finite q)
  | .pstr s => .ostr s

/-! ## TradingStrategy.backtest (trading_environment.py lines 161-180)

`price` and `signal` are NaN-free series of equal index; the series are
embedded positionally as `List ℚ`. -/

/-- `sig.shift(1).fillna(0)`: drop in a leading 0, discard the last entry. -/
def shift1fill0 (xs : List ℚ) : List ℚ :=
  (0 :: xs).take xs.length

/-- `price.pct_change().fillna(0)`: first entry NaN→0, then
`price[t]/price[t-1] - 1`. -/
def pctChangeFill0 (xs : List ℚ) : List ℚ :=
  match xs with
  | [] => []
  | _ :: tail => 0 :: List.zipWith (fun prev cur => cur / prev - 1) xs tail

/-- `sig.diff().abs().fillna(0)`: first entry NaN→0, then
`|sig[t] - sig[t-1]|`. -/
def diffAbsFill0 (xs : List ℚ) : List ℚ :=
  match xs with
  | [] => []
  | _ :: tail => 0 :: List.zipWith (fun prev cur => |cur - prev|) xs tail

/-- `strat_ret = pos * ret - sig.diff().abs().fillna(0) * transaction_cost`. -/
def stratRet (price sig : List ℚ) (tc : ℚ) : List ℚ :=
  List.zipWith (fun pr d => pr - d * tc)
    (List.zipWith (· * ·) (shift1fill0 sig) (pctChangeFill0 price))
    (diffAbsFill0 sig)

/-- Pandas `Series.cumprod`: entry `t` is the product of entries `0..t`. -/
def cumprod : List ℚ → List ℚ
  | [] => []
  | x :: xs => x :: (cumprod xs).map (fun y => x * y)

/-- `equity = initial_capital * (1 + strat_ret).cumprod()` (line 175). -/
def backtest (price sig : List ℚ) (initialCapital tc : ℚ) : List ℚ :=
  (cumprod ((stratRet price sig tc).map (fun r => 1 + r))).map
    (fun p => initialCapital * p)

/-- The state the backtest leaves on the strategy object (lines 177-179).
Note line 177 stores the raw signal `sig` in `self.positions`, not the
lagged series `pos`. -/
structure BacktestResult where
  positions : List ℚ
  returns : List ℚ
  equityCurve : List ℚ
deriving Repr, DecidableEq

/-- Full effect of `TradingStrategy.backtest` (lines 170-180). -/
def backtestRun (price sig : List ℚ) (initialCapital tc : ℚ) : BacktestResult :=
  { positions := sig
    returns := stratRet price sig tc
    equityCurve := backtest price sig initialCapital tc }

/-! Spec-side index formulas (spec.md section 4.2), written per time index. -/

/-- Spec: `position[t] = signal[t-1]`, `position[0] = 0`. -/
def posSpec (sig : List ℚ) (t : ℕ) : ℚ :=
  if t = 0 then 0 else sig.getD (t - 1) 0

/-- Spec: `priceReturn[t] = price[t]/price[t-1] - 1`, `priceReturn[0] = 0`. -/
def priceRetSpec (price : List ℚ) (t : ℕ) : ℚ :=
  if t = 0 then 0 else price.getD t 0 / price.getD (t - 1) 0 - 1

/-- Spec: signal change `signal[t] - signal[t-1]`, treated as 0 at `t = 0`. -/
def sigChangeSpec (sig : List ℚ) (t : ℕ) : ℚ :=
  if t = 0 then 0 else sig.getD t 0 - sig.getD (t - 1) 0

/-- Spec: `periodReturn[t] = position[t] * priceReturn[t]
  - transactionCost * |signal[t] - signal[t-1]|`. -/
def periodRetSpec (price sig : List ℚ) (tc : ℚ) (t : ℕ) : ℚ :=
  posSpec sig t * priceRetSpec price t - tc * |sigChangeSpec sig t|

/-- Spec: `equity[t] = initialCapital * Π_{k ≤ t} (1 + periodReturn[k])`. -/
def equitySpec (price sig : List ℚ) (ic tc : ℚ) (t : ℕ) : ℚ :=
  ic * Finset.prod (Finset.range (t + 1)) (fun k => 1 + periodRetSpec price sig tc k)

/-! ## Indexing lemmas -/

theorem getD_take_of_lt (l : List ℚ) (n i : ℕ) (h : i < n) (d : ℚ) :
    (l.take n).getD i d = l.getD i d := by
  induction l generalizing n i with
  | nil => simp
  | cons x xs ih =>
    cases n with
    | zero => omega
    | succ m =>
      cases i with
      | zero => rfl
      | succ j => simpa [List.getD_cons_succ] using ih m j (by omega) 

theorem getD_map_of_lt (f : ℚ → ℚ) (l : List ℚ) (i : ℕ) (h : i < l.length) :
    (l.map f).getD i 0 = f (l.getD i 0) := by
  induction l generalizing i with
  | nil => simp at h
  | cons x xs ih =>
    cases i with
    | zero => rfl
    | succ j => simpa [List.getD_cons_succ] using ih j (by simpa using h)

theorem getD_zipWith_of_lt (f : ℚ → ℚ → ℚ) (l1 l2 : List ℚ) (i : ℕ)
    (h1 : i < l1.length) (h2 : i < l2.length) :
    (List.zipWith f l1 l2).getD i 0 = f (l1.getD i 0) (l2.getD i 0) := by
  induction l1 generalizing l2 i with
  | nil => simp at h1
  | cons x xs ih =>
    cases l2 with
    | nil => simp at h2
    | cons y ys =>
      cases i with
      | zero => rfl
      | succ j =>
        simpa [List.getD_cons_succ] using
          ih ys j (by simpa using h1) (by simpa using h2)

theorem length_shift1fill0 (xs : List ℚ) : (shift1fill0 xs).length = xs.length := by
  simp [shift1fill0]

theorem length_pctChangeFill0 (xs : List ℚ) :
    (pctChangeFill0 xs).length = xs.length := by
  cases xs with
  | nil => rfl
  | cons x t => simp [pctChangeFill0]

theorem length_diffAbsFill0 (xs : List ℚ) :
    (diffAbsFill0 xs).length = xs.length := by
  cases xs with
  | nil => rfl
  | cons x t => simp [diffAbsFill0]

theorem length_stratRet (price sig : List ℚ) (tc : ℚ)
    (h : sig.length = price.length) :
    (stratRet price sig tc).length = price.length := by
  simp [stratRet, length_shift1fill0, length_pctChangeFill0, length_diffAbsFill0, h]

theorem length_cumprod (xs : List ℚ) : (cumprod xs).length = xs.length := by
  induction xs with
  | nil => rfl
  | cons x xs ih => simp [cumprod, ih]

theorem shift1fill0_getD (sig : List ℚ) (t : ℕ) (ht : t < sig.length) :
    (shift1fill0 sig).getD t 0 = posSpec sig t := by
  unfold shift1fill0 posSpec
  rw [getD_take_of_lt _ _ _ ht]
  cases t with
  | zero => rfl
  | succ j => simp [List.getD_cons_succ]

theorem pctChangeFill0_getD (price : List ℚ) (t : ℕ) (ht : t < price.length) :
    (pctChangeFill0 price).getD t 0 = priceRetSpec price t := by
  cases price with
  | nil => simp at ht
  | cons p ps =>
    cases t with
    | zero => simp [pctChangeFill0, priceRetSpec]
    | succ j =>
      have hj : j < ps.length := by simpa using ht
      unfold pctChangeFill0 priceRetSpec
      simp only [List.getD_cons_succ, if_neg (Nat.succ_ne_zero j)]
      rw [getD_zipWith_of_lt _ _ _ _ (by simp; omega) hj]
      simp [List.getD_cons_succ]

theorem diffAbsFill0_getD (sig : List ℚ) (t : ℕ) (ht : t < sig.length) :
    (diffAbsFill0 sig).getD t 0 = |sigChangeSpec sig t| := by
  cases sig with
  | nil => simp at ht
  | cons s ss =>
    cases t with
    | zero => simp [diffAbsFill0, sigChangeSpec]
    | succ j =>
      have hj : j < ss.length := by simpa using ht
      unfold diffAbsFill0 sigChangeSpec
      simp only [List.getD_cons_succ, if_neg (Nat.succ_ne_zero j)]
      rw [getD_zipWith_of_lt _ _ _ _ (by simp; omega) hj]
      simp [List.getD_cons_succ]

theorem stratRet_getD (price sig : List ℚ) (tc : ℚ) (t : ℕ)
    (hlen : sig.length = price.length) (ht : t < price.length) :
    (stratRet price sig tc).getD t 0 = periodRetSpec price sig tc t := by
  have hts : t < sig.length := by omega
  unfold stratRet periodRetSpec
  rw [getD_zipWith_of_lt _ _ _ _
        (by simp [length_shift1fill0, length_pctChangeFill0]; omega)
        (by simp [length_diffAbsFill0]; omega)]
  rw [getD_zipWith_of_lt _ _ _ _
        (by simp [length_shift1fill0]; omega)
        (by simp [length_pctChangeFill0]; omega)]
  rw [shift1fill0_getD _ _ hts, pctChangeFill0_getD _ _ ht, diffAbsFill0_getD _ _ hts]
  ring

theorem cumprod_getD (xs : List ℚ) (t : ℕ) (ht : t < xs.length) :
    (cumprod xs).getD t 0
      = Finset.prod (Finset.range (t + 1)) (fun k => xs.getD k 0) := by
  induction xs generalizing t with
  | nil => simp at ht
  | cons x xs ih =>
    cases t with
    | zero => simp [cumprod]
    | succ j =>
      have hj : j < xs.length := by simpa using ht
      simp only [cumprod, List.getD_cons_succ]
      rw [getD_map_of_lt _ _ _ (by rw [length_cumprod]; exact hj)]
      rw [ih j hj]
      conv_rhs => rw [Finset.prod_range_succ']
      simp [List.getD_cons_succ, mul_comm]

theorem backtest_getD (price sig : List ℚ) (ic tc : ℚ) (t : ℕ)
    (hlen : sig.length = price.length) (ht : t < price.length) :
    (backtest price sig ic tc).getD t 0 = equitySpec price sig ic tc t := by
  have hsr : (stratRet price sig tc).length = price.length :=
    length_stratRet _ _ _ hlen
  unfold backtest equitySpec
  rw [getD_map_of_lt _ _ _ (by rw [length_cumprod, List.length_map, hsr]; exact ht)]
  rw [cumprod_getD _ _ (by rw [List.length_map, hsr]; exact ht)]
  congr 1
  refine Finset.prod_congr rfl (fun k hk => ?_)
  have hkt : k < price.length := by
    have := Finset.mem_range.mp hk; omega
  rw [getD_map_of_lt _ _ _ (by rw [hsr]; exact hkt)]
  rw [stratRet_getD _ _ _ _ hlen hkt]

theorem getD_replicate_zero (n i : ℕ) : (List.replicate n (0 : ℚ)).getD i 0 = 0 := by
  induction n generalizing i with
  | zero => simp
  | succ m ih =>
    cases i with
    | zero => rfl
    | succ j => rw [List.replicate_succ, List.getD_cons_succ]; exact ih j

theorem getD_eq_getElem_of_lt (l : List ℚ) (i : ℕ) (h : i < l.length) (d : ℚ) :
    l.getD i d = l[i] := by
  induction l generalizing i with
  | nil => simp at h
  | cons x xs ih =>
    cases i with
    | zero => rfl
    | succ j => simpa [List.getD_cons_succ] using ih j (by simpa using h)

/-- C1: for every price series, signal series, initial capital and
transaction cost (and every in-range time index), `backtest` computes the
period return
`periodReturn[t] = position[t]*priceReturn[t] - tc*|signal[t]-signal[t-1]|`
with `position[t] = signal[t-1]`, `position[0] = 0`,
`priceReturn[t] = price[t]/price[t-1] - 1`, `priceReturn[0] = 0`, the
signal change at `t = 0` treated as 0, and returns the equity curve
`equity[t] = initialCapital * Π_{k ≤ t} (1 + periodReturn[k])`. -/
theorem backtest_equity_formula (price sig : List ℚ) (ic tc : ℚ) (t : ℕ)
    (hlen : sig.length = price.length) (ht : t < price.length) :
    (backtestRun price sig ic tc).returns.getD t 0 = periodRetSpec price sig tc t ∧
    (backtestRun price sig ic tc).equityCurve.getD t 0 = equitySpec price sig ic tc t :=
  ⟨stratRet_getD price sig tc t hlen ht, backtest_getD price sig ic tc t hlen ht⟩

/-- Witness for `backtest_equity_formula` at prices `[1, 2]`,
signal `[1, 1]`, capital 50, cost 1/100, index 1. -/
theorem backtest_equity_formula_witness :
    (backtestRun [1, 2] [1, 1] 50 (1/100)).returns.getD 1 0
        = periodRetSpec [1, 2] [1, 1] (1/100) 1 ∧
    (backtestRun [1, 2] [1, 1] 50 (1/100)).equityCurve.getD 1 0
        = equitySpec [1, 2] [1, 1] 50 (1/100) 1 :=
  backtest_equity_formula [1, 2] [1, 1] 50 (1/100) 1 (by decide) (by decide)

/-- C2 (code bug): at prices `[100, 110, 121]`, signal `[1, 1, 1]`,
`self.positions` receives the raw signal `[1, 1, 1]` (line 177), not the
lagged series `[0, 1, 1]` that the claim (and the spec's own test vector)
prescribe; the lagged series is computed (line 172) and used for the
returns but never stored. -/
theorem backtest_stores_signal_not_lagged :
    (backtestRun [100, 110, 121] [1, 1, 1] 100 0).positions = [1, 1, 1] ∧
    shift1fill0 [1, 1, 1] = [0, 1, 1] ∧
    ([1, 1, 1] : List ℚ) ≠ [0, 1, 1] := by
  refine ⟨rfl, rfl, by decide⟩

/-- C8: the first entry of the equity curve equals the initial capital,
and with an all-zero signal the equity curve is constant at the initial
capital for every period. -/
theorem backtest_initial_capital (price sig : List ℚ) (ic tc : ℚ)
    (hlen : sig.length = price.length) (hne : price ≠ []) :
    (backtest price sig ic tc).getD 0 0 = ic ∧
    backtest price (List.replicate price.length 0) ic tc
      = List.replicate price.length ic := by
  have hlen0 : 0 < price.length := List.length_pos.mpr hne
  constructor
  · rw [backtest_getD price sig ic tc 0 hlen hlen0]
    simp [equitySpec, periodRetSpec, posSpec, priceRetSpec, sigChangeSpec]
  · have hrep : (List.replicate price.length (0 : ℚ)).length = price.length := by
      simp
    have hl : (backtest price (List.replicate price.length 0) ic tc).length
        = price.length := by
      unfold backtest
      rw [List.length_map, length_cumprod, List.length_map,
        length_stratRet _ _ _ hrep]
    apply List.ext_getElem (by simp [hl])
    intro i h1 h2
    have hi : i < price.length := by rwa [hl] at h1
    rw [← getD_eq_getElem_of_lt _ _ h1 0, ← getD_eq_getElem_of_lt _ _ h2 0]
    rw [backtest_getD price _ ic tc i hrep hi]
    have hper : ∀ k, periodRetSpec price (List.replicate price.length 0) tc k = 0 := by
      intro k
      unfold periodRetSpec posSpec priceRetSpec sigChangeSpec
      cases k with
      | zero => simp
      | succ j => simp [getD_replicate_zero]
    unfold equitySpec
    rw [Finset.prod_congr rfl (fun k _ => by rw [hper k])]
    simp [List.getElem?_replicate, hi]

/-- Witness for `backtest_initial_capital` at prices `[2, 3, 4]`. -/
theorem backtest_initial_capital_witness :
    (backtest [2, 3, 4] [1, 0, 1] 7 0).getD 0 0 = 7 ∧
    backtest [2, 3, 4] (List.replicate ([2, 3, 4] : List ℚ).length 0) 7 0
      = List.replicate ([2, 3, 4] : List ℚ).length 7 :=
  backtest_initial_capital [2, 3, 4] [1, 0, 1] 7 0 (by decide) (by decide)

/-! ## PerformanceAnalyzer (trading_environment.py lines 183-203)

The returns series may contain NaN entries, embedded as `List (Option ℚ)`
with `none` for NaN.  The constructor (line 185) drops them. -/

/-- `returns.dropna()` (line 185). -/
def dropna (xs : List (Option ℚ)) : List ℚ := xs.filterMap id

/-- Series mean (junk 0/0 = 0 on an empty list; every use below is guarded
the same way the Python code guards against emptiness/NaN). -/
def meanD (xs : List ℚ) : ℚ := xs.sum / (xs.length : ℚ)

/-- Pandas `Series.std(ddof=1)` squared: the sample variance.  `none`
models the NaN that pandas returns for fewer than two observations. -/
def sampleVar? (xs : List ℚ) : Option ℚ :=
  if xs.length ≤ 1 then none
  else some ((xs.map (fun x => (x - meanD xs) ^ 2)).sum / ((xs.length : ℚ) - 1))

/-- Pandas `Series.min()`: `none` models the NaN returned on an empty
series. -/
def listMin? : List ℚ → Option ℚ
  | [] => none
  | x :: xs => some (xs.foldl min x)

/-- Pandas `Series.cummax()`. -/
def cummax : List ℚ → List ℚ
  | [] => []
  | x :: xs => x :: (cummax xs).map (fun y => max x y)

/-- Line 192: `sr = mean/std*sqrt(252) if std else nan`.  A NaN std
(fewer than two observations) is truthy in Python, and then
`mean/NaN*sqrt(252)` is NaN, so both the `std() = NaN` and the
`std() = 0` cases yield NaN (`none`).  When the std is a nonzero
rational square root `sqrt v`, the exact value `mean/sqrt(v)*sqrt(252)`
is represented as a pair `(c, r)` standing for `c * sqrt r`, with
`c = mean/v` and `r = 252*v` (see `summary_sharpe_guard` for the proof
that this is the same real number). -/
def sharpeCell (returns : List ℚ) : Option (ℚ × ℚ) :=
  match sampleVar? returns with
  | none => none
  | some v => if v = 0 then none else some (meanD returns / v, 252 * v)

/-- The `summary()` record (lines 187-203), with each float cell
represented exactly:
* `totalReturn` — `equity.iloc[-1]/equity.iloc[0] - 1` (junk 0 on an
  empty equity series, where Python would raise IndexError);
* `annDays` — the observation count `n` in `(1+tot)**(252/n)`;
* `annIsNaN` — line 190 yields NaN when `days = 0`;
* `volVar` — the sample variance whose square root scaled by
  `sqrt 252` is the annualized volatility; `none` for a NaN std;
* `sharpe` — see `sharpeCell`;
* `maxDrawdown` — `none` models NaN on an empty series;
* `winRate` — `(returns > 0).mean()`; `none` (NaN) on an empty series;
* `profitFactor` — `none` (NaN) when no negative returns exist;
* `expectancy` — NaN exactly when `winRate` is NaN. -/
structure Summary where
  totalReturn : ℚ
  annDays : ℕ
  annIsNaN : Bool
  volVar : Option ℚ
  sharpe : Option (ℚ × ℚ)
  maxDrawdown : Option ℚ
  winRate : Option ℚ
  profitFactor : Option ℚ
  expectancy : Option ℚ
deriving Repr, DecidableEq

/-- `PerformanceAnalyzer.summary` over the already-dropna'd returns. -/
def summaryOf (equity returns : List ℚ) : Summary :=
  let wr : Option ℚ :=
    if returns.isEmpty then none
    else some (((returns.filter (fun r => decide (0 < r))).length : ℚ)
                / (returns.length : ℚ))
  { totalReturn := equity.getLastD 0 / equity.headD 0 - 1
    annDays := returns.length
    annIsNaN := decide (returns.length = 0)
    volVar := sampleVar? returns
    sharpe := sharpeCell returns
    maxDrawdown :=
      listMin? (List.zipWith (fun e m => (e - m) / m) equity (cummax equity))
    winRate := wr
    profitFactor :=
      if returns.any (fun r => decide (r < 0)) then
        some ((returns.filter (fun r => decide (0 < r))).sum
              / -((returns.filter (fun r => decide (r < 0))).sum))
      else none
    expectancy :=
      match wr with
      | none => none
      | some w =>
        some (w * (if returns.any (fun r => decide (0 < r)) then
                     meanD (returns.filter (fun r => decide (0 < r)))
                   else 0)
          - (1 - w) * (if returns.any (fun r => decide (r < 0)) then
                         -(meanD (returns.filter (fun r => decide (r < 0))))
                       else 0)) }

/-- `PerformanceAnalyzer(equity, returns).summary()`: the constructor
drops NaN entries (line 185), then `summary()` runs on what was stored. -/
def analyzerSummary (equity : List ℚ) (returns : List (Option ℚ)) : Summary :=
  summaryOf equity (dropna returns)

theorem sampleVar?_nonneg (xs : List ℚ) (v : ℚ) (h : sampleVar? xs = some v) :
    0 ≤ v := by
  unfold sampleVar? at h
  split at h
  · exact absurd h (by simp)
  · next hlen =>
    simp only [Option.some.injEq] at h
    subst h
    apply div_nonneg
    · apply List.sum_nonneg
      intro x hx
      simp only [List.mem_map] at hx
      obtain ⟨y, _, rfl⟩ := hx
      positivity
    · have h2 : 2 ≤ xs.length := by omega
      have h2q : (2 : ℚ) ≤ (xs.length : ℚ) := by exact_mod_cast h2
      linarith

/-- C6: on a returns series whose sample standard deviation is zero the
summary's Sharpe cell is NaN (`none`) — the guard on line 192 prevents a
division error, so `summary()` is a total function of the series — and on
a series with a defined nonzero standard deviation the Sharpe cell holds
the exact value `mean(returns)/stdev(returns) * sqrt(252)`. -/
theorem summary_sharpe_guard (equity returns : List ℚ) :
    (sampleVar? returns = some 0 → (summaryOf equity returns).sharpe = none) ∧
    (∀ v : ℚ, sampleVar? returns = some v → v ≠ 0 →
      ∃ c r : ℚ, (summaryOf equity returns).sharpe = some (c, r) ∧
        (c : ℝ) * Real.sqrt (r : ℝ)
          = ((meanD returns : ℚ) : ℝ) / Real.sqrt ((v : ℚ) : ℝ)
              * Real.sqrt 252) := by
  have hsh : (summaryOf equity returns).sharpe = sharpeCell returns := rfl
  constructor
  · intro h0
    rw [hsh]
    unfold sharpeCell
    rw [h0]
    simp
  · intro v hv hne
    have hnn : 0 ≤ v := sampleVar?_nonneg returns v hv
    have hpos : 0 < v := lt_of_le_of_ne hnn (Ne.symm hne)
    refine ⟨meanD returns / v, 252 * v, ?_, ?_⟩
    · rw [hsh]
      unfold sharpeCell
      rw [hv]
      simp [hne]
    · have hvR : (0 : ℝ) < (v : ℝ) := by exact_mod_cast hpos
      have hsne : Real.sqrt (v : ℝ) ≠ 0 := (Real.sqrt_pos.mpr hvR).ne'
      have hm : Real.sqrt (v : ℝ) * Real.sqrt (v : ℝ) = (v : ℝ) :=
        Real.mul_self_sqrt hvR.le
      push_cast
      rw [Real.sqrt_mul (by norm_num : (0 : ℝ) ≤ 252)]
      nth_rewrite 1 [← hm]
      field_simp
      rw [mul_assoc, mul_assoc, hm]
      ring

/-- Witness for `summary_sharpe_guard`: zero-variance part at `[1, 1]`,
nonzero-variance part at `[0, 1]` (variance 1/2). -/
theorem summary_sharpe_guard_witness :
    (summaryOf [1] [1, 1]).sharpe = none ∧
    ∃ c r : ℚ, (summaryOf [1] [0, 1]).sharpe = some (c, r) ∧
      (c : ℝ) * Real.sqrt (r : ℝ)
        = ((meanD [0, 1] : ℚ) : ℝ) / Real.sqrt (((1 : ℚ)/2 : ℚ) : ℝ)
            * Real.sqrt 252 :=
  ⟨(summary_sharpe_guard [1] [1, 1]).1 (by norm_num [sampleVar?, meanD]),
   (summary_sharpe_guard [1] [0, 1]).2 (1/2)
     (by norm_num [sampleVar?, meanD]) (by norm_num)⟩

theorem dropna_map_some (l : List ℚ) : dropna (l.map some) = l := by
  unfold dropna
  induction l with
  | nil => rfl
  | cons x xs ih => simp

/-- C9: the analyzer drops NaN entries at construction, so the whole
summary agrees with the summary of the NaN-free series of the non-NaN
entries; in particular the observation count `n` and the win-rate
denominator count only non-NaN returns. -/
theorem analyzer_drops_nan (equity : List ℚ) (returns : List (Option ℚ)) :
    analyzerSummary equity returns
      = analyzerSummary equity ((dropna returns).map some) ∧
    (analyzerSummary equity returns).annDays = (dropna returns).length ∧
    (analyzerSummary equity returns).winRate
      = (if dropna returns = [] then none
         else some ((((dropna returns).filter (fun r => decide (0 < r))).length : ℚ)
                     / ((dropna returns).length : ℚ))) := by
  refine ⟨?_, rfl, ?_⟩
  · unfold analyzerSummary
    rw [dropna_map_some]
  · unfold analyzerSummary summaryOf
    by_cases h : dropna returns = []
    · simp [h]
    · simp [h, List.isEmpty_iff]

/-! ## Optimizer.__init__: param_config → param_grid (lines 212-239) -/

/-- One entry of a strategy's `param_config`: either a `choices` list, or
a `type`+`bounds` numeric range (`int` with a `step`, `float` with a
point count `n`). -/
inductive ParamSpec where
  | choices (vals : List PyVal)
  | intRange (low high step : ℤ)
  | floatRange (low high : ℚ) (n : ℕ)
deriving Repr, DecidableEq

/-- Python `list(range(low, high + 1, step))` for a positive step. -/
def intRangeList (low high step : ℤ) : List ℤ :=
  if step ≤ 0 then []
  else
    (List.range (((high + 1 - low).toNat + step.toNat - 1) / step.toNat)).map
      (fun i => low + step * (i : ℤ))

/-- `np.linspace(low, high, n)`: `n` evenly spaced points, endpoints
included (`[low]` when `n = 1`). -/
def linspace (low high : ℚ) (n : ℕ) : List ℚ :=
  if n = 1 then [low]
  else (List.range n).map (fun i => low + (high - low) * (i : ℚ) / ((n : ℚ) - 1))

/-- Grid entry for one spec (lines 222-237): `choices` verbatim,
`range(low, high+1, step)` for ints, `linspace(low, high, n)` for
floats. -/
def specGrid : ParamSpec → List PyVal
  | .choices vals => vals
  | .intRange low high step => (intRangeList low high step).map PyVal.pint
  | .floatRange low high n => (linspace low high n).map PyVal.pfloat

/-- `self.param_grid` as an ordered association list. -/
def optimizerGrid (config : List (String × ParamSpec)) : List (String × List PyVal) :=
  config.map (fun p => (p.1, specGrid p.2))

/-! ## Optimizer.optimize_de (lines 321-402) -/

/-- Python `round` (and `np.round`): round half to even. -/
def pyRoundQ (q : ℚ) : ℤ :=
  let f : ℤ := ⌊q⌋
  let frac : ℚ := q - (f : ℚ)
  if frac < 1/2 then f
  else if 1/2 < frac then f + 1
  else if f % 2 = 0 then f else f + 1

/-- `int(round(xi))`: raises OverflowError/ValueError (`none`) on a
non-finite float. -/
def pyRound? : PyFloat → Option ℤ
  | .finite q => some (pyRoundQ q)
  | _ => none

/-- One optimization dimension after the numeric/categorical split. -/
inductive DimSpec where
  | numeric (low high : ℚ) (isInt : Bool)
  | categorical (choices : List PyVal)
deriving Repr, DecidableEq

/-- Python `min(vals)` (junk 0 on the empty list, where Python raises). -/
def qMin : List ℚ → ℚ
  | [] => 0
  | x :: xs => xs.foldl min x

/-- Python `max(vals)` (junk 0 on the empty list, where Python raises). -/
def qMax : List ℚ → ℚ
  | [] => 0
  | x :: xs => xs.foldl max x

/-- The split on lines 334-346: a grid whose values are **all** numeric
(`isinstance(v, (int, float))`) becomes a numeric dimension with bounds
`(min(vals), max(vals))`; any other grid becomes a categorical dimension
indexed by position.  Note the split tests the runtime types of the grid
values, not whether the spec was declared with `choices`. -/
def classifyDim (vals : List PyVal) : DimSpec :=
  if vals.all PyVal.isNumericB then
    .numeric (qMin (vals.map PyVal.toQ)) (qMax (vals.map PyVal.toQ))
      (vals.all PyVal.isIntB)
  else .categorical vals

/-- The per-dimension bounds handed to `differential_evolution`. -/
def dimBounds : DimSpec → ℚ × ℚ
  | .numeric low high _ => (low, high)
  | .categorical choices => (0, (choices.length : ℚ) - 1)

/-- Dimensions of the DE search, in `param_grid` order. -/
def buildDims (grid : List (String × List PyVal)) : List (String × DimSpec) :=
  grid.map (fun p => (p.1, classifyDim p.2))

/-- Decoding of one vector component (lines 362-369): a categorical
dimension picks `choices[clip(round(xi), 0, len-1)]`; an integer
dimension takes `int(round(xi))`; a float dimension passes `xi` through.
`int(round(·))` of a non-finite float raises (`Except.error`) — this
happens **outside** the `try` of the objective. -/
def decodeDim (d : DimSpec) (xi : PyFloat) : Except String PyObj :=
  match d with
  | .categorical choices =>
    match pyRound? xi with
    | none => .error "OverflowError"
    | some i =>
      match choices[(max 0 (min i ((choices.length : ℤ) - 1))).toNat]? with
      | some v => .ok v.toObj
      | none => .error "IndexError"
  | .numeric _ _ isInt =>
    if isInt then
      match pyRound? xi with
      | none => .error "OverflowError"
      | some i => .ok (.oint i)
    else .ok (.ofloat xi)

/-- `for xi, k, is_int in zip(x, keys, int_flags): ...` — decode the
vector left to right, stopping at the first raising component. -/
def decodeAll : List DimSpec → List PyFloat → Except String (List PyObj)
  | [], _ => .ok []
  | _, [] => .ok []
  | d :: ds, x :: xs =>
    match decodeDim d x with
    | .error e => .error e
    | .ok v =>
      match decodeAll ds xs with
      | .error e => .error e
      | .ok rest => .ok (v :: rest)

/-- The DE objective `_func` (lines 357-377): the NaN guard, then decode
(outside the `try`), then the guarded evaluation, negated on success and
scored with the 1e6 penalty on any caught exception.  `evalCand` stands
for `strategy(kwargs) → backtest → summary()[metric]`, which depends on
the plug-in strategy class. -/
def deFunc (dims : List DimSpec) (evalCand : List PyObj → Except String ℚ)
    (x : List PyFloat) : Except String ℚ :=
  if x.any PyFloat.isnanB then .ok 1000000
  else
    match decodeAll dims x with
    | .error e => .error e
    | .ok kwargs =>
      match evalCand kwargs with
      | .ok perf => .ok (-perf)
      | .error _ => .ok 1000000

/-- C3 counterexample: the guard on line 359 is `np.any(np.isnan(x))`,
which lets infinities through.  With an infinite component on a float
dimension the objective evaluates the candidate and returns the negated
metric (here -5, not the 1e6 penalty); on an integer dimension
`int(round(inf))` raises OverflowError outside the `try`. -/
theorem de_objective_inf_not_rejected :
    deFunc [DimSpec.numeric 0 1 false] (fun _ => .ok 5) [PyFloat.inf] = .ok (-5) ∧
    (Except.ok (-5 : ℚ) : Except String ℚ) ≠ .ok 1000000 ∧
    deFunc [DimSpec.numeric 0 1 true] (fun _ => .ok 5) [PyFloat.inf]
      = .error "OverflowError" := by
  refine ⟨rfl, fun h => absurd (Except.ok.inj h) (by norm_num), rfl⟩

/-- C3 amended: for every input vector containing a NaN component the
objective returns the large finite penalty 1e6 immediately, for every
dimension list and every candidate evaluator — no evaluation is attempted
and no exception escapes.  (Vectors with infinite but non-NaN components
pass the guard; see `de_objective_inf_not_rejected`.) -/
theorem de_objective_nan_guard (dims : List DimSpec)
    (evalCand : List PyObj → Except String ℚ) (x : List PyFloat)
    (h : x.any PyFloat.isnanB = true) :
    deFunc dims evalCand x = .ok 1000000 := by
  simp [deFunc, h]

/-- Witness for `de_objective_nan_guard` at `x = [nan]`. -/
theorem de_objective_nan_guard_witness :
    deFunc [DimSpec.numeric 0 1 true] (fun _ => .ok 7) [PyFloat.nan]
      = .ok 1000000 :=
  de_objective_nan_guard _ _ _ (by decide)

theorem mem_of_getElem?_eq {α : Type} (l : List α) (n : ℕ) (a : α)
    (h : l[n]? = some a) : a ∈ l := by
  induction l generalizing n with
  | nil => simp at h
  | cons x xs ih =>
    cases n with
    | zero =>
      simp only [List.getElem?_cons_zero, Option.some.injEq] at h
      exact h ▸ List.mem_cons_self x xs
    | succ m =>
      simp only [List.getElem?_cons_succ] at h
      exact List.mem_cons_of_mem _ (ih m h)

/-- C7 counterexample: a categorical spec whose choices are all numeric —
`param_config = {m: {choices: [1, 5, 9]}}` — is encoded as a numeric
dimension with bounds `(1, 9)` and integer rounding, not as an index into
`[0, len(choices)-1] = [0, 2]`; decoding the vector component 3.0 yields
the value 3, which is not a member of the declared choices list. -/
theorem de_numeric_choices_not_indexed :
    buildDims (optimizerGrid
        [("m", ParamSpec.choices [PyVal.pint 1, PyVal.pint 5, PyVal.pint 9])])
      = [("m", DimSpec.numeric 1 9 true)] ∧
    dimBounds (DimSpec.numeric 1 9 true)
      ≠ (0, (([PyVal.pint 1, PyVal.pint 5, PyVal.pint 9].length : ℚ) - 1)) ∧
    decodeDim (DimSpec.numeric 1 9 true) (PyFloat.finite 3)
      = .ok (PyObj.oint 3) ∧
    PyObj.oint 3 ∉ [PyVal.pint 1, PyVal.pint 5, PyVal.pint 9].map PyVal.toObj := by
  refine ⟨?_, ?_, ?_, by decide⟩
  · norm_num [buildDims, optimizerGrid, specGrid, classifyDim, qMin, qMax,
      PyVal.isNumericB, PyVal.isIntB, PyVal.toQ, min_def, max_def]
  · norm_num [dimBounds]
  · norm_num [decodeDim, pyRound?, pyRoundQ]

/-- C7 amended: a parameter whose grid values are **not** all numeric is
encoded as an integer index with bounds `[0, len(choices)-1]` and decoded
by round-and-clip, so every successfully decoded value is a member of the
declared choices list; a parameter whose grid values are all numeric
(including a numeric `choices` list) is encoded with the numeric bounds
`(min(vals), max(vals))`. -/
theorem de_encoding_split (vals : List PyVal) :
    (vals.all PyVal.isNumericB = false →
      classifyDim vals = DimSpec.categorical vals ∧
      dimBounds (classifyDim vals) = (0, (vals.length : ℚ) - 1) ∧
      ∀ (xi : PyFloat) (v : PyObj),
        decodeDim (classifyDim vals) xi = .ok v → v ∈ vals.map PyVal.toObj) ∧
    (vals.all PyVal.isNumericB = true →
      classifyDim vals
        = DimSpec.numeric (qMin (vals.map PyVal.toQ)) (qMax (vals.map PyVal.toQ))
            (vals.all PyVal.isIntB) ∧
      dimBounds (classifyDim vals)
        = (qMin (vals.map PyVal.toQ), qMax (vals.map PyVal.toQ))) := by
  constructor
  · intro hnum
    have hcat : classifyDim vals = .categorical vals := by
      unfold classifyDim
      rw [hnum]
      simp
    refine ⟨hcat, by rw [hcat]; rfl, ?_⟩
    intro xi v hdec
    rw [hcat] at hdec
    unfold decodeDim at hdec
    cases hxi : pyRound? xi with
    | none => rw [hxi] at hdec; exact absurd hdec (by simp)
    | some i =>
      rw [hxi] at hdec
      dsimp only at hdec
      cases hget : vals[(max 0 (min i ((vals.length : ℤ) - 1))).toNat]? with
      | none => rw [hget] at hdec; exact absurd hdec (by simp)
      | some w =>
        rw [hget] at hdec
        simp only [Except.ok.injEq] at hdec
        subst hdec
        exact List.mem_map_of_mem _ (mem_of_getElem?_eq _ _ _ hget)
  · intro hnum
    have hn : classifyDim vals
        = DimSpec.numeric (qMin (vals.map PyVal.toQ)) (qMax (vals.map PyVal.toQ))
            (vals.all PyVal.isIntB) := by
      unfold classifyDim
      rw [hnum]
      simp
    exact ⟨hn, by rw [hn]; rfl⟩

/-- Witness for `de_encoding_split` on string choices `["a", "b"]`,
decoding component 1.0 to the member `"b"`. -/
theorem de_encoding_split_witness :
    classifyDim [PyVal.pstr "a", PyVal.pstr "b"]
      = DimSpec.categorical [PyVal.pstr "a", PyVal.pstr "b"] ∧
    PyObj.ostr "b" ∈ [PyVal.pstr "a", PyVal.pstr "b"].map PyVal.toObj :=
  ⟨((de_encoding_split [PyVal.pstr "a", PyVal.pstr "b"]).1 (by decide)).1,
   ((de_encoding_split [PyVal.pstr "a", PyVal.pstr "b"]).1 (by decide)).2.2
     (PyFloat.finite 1) (PyObj.ostr "b")
     (by norm_num [classifyDim, PyVal.isNumericB, decodeDim, pyRound?, pyRoundQ,
       PyVal.toObj])⟩

/-! ## Optimizer.optimize_bayesian (lines 293-317) -/

/-- The objective of `optimize_bayesian` (lines 294-308), as a function of
the outcome of its `try` block (instantiate strategy → backtest →
`summary()[metric]`, which depends on the plug-in strategy class):
on an exception the error string is recorded as the trial's user
attribute and the trial is scored `-inf`; a non-finite score is replaced
by `-inf`; a finite score passes through.  The result is the returned
score paired with the recorded attribute. -/
def bayesObjective (tryOutcome : Except String PyFloat) :
    PyFloat × Option String :=
  match tryOutcome with
  | .error e => (PyFloat.neginf, some e)
  | .ok score => if score.isFiniteB then (score, none) else (PyFloat.neginf, none)

/-- C5: the sequential-search objective is a total function of the
evaluation outcome (it never raises out of the search loop): an exception
during instantiation, backtest or evaluation is caught, recorded as trial
metadata and scored `-inf`; a non-finite metric value is converted to
`-inf`; and the returned score is always either finite or `-inf`. -/
theorem bayes_objective_never_raises (o : Except String PyFloat) :
    ((bayesObjective o).1.isFiniteB = true ∨ (bayesObjective o).1 = PyFloat.neginf) ∧
    (∀ e, o = .error e → bayesObjective o = (PyFloat.neginf, some e)) ∧
    (∀ s, o = .ok s → s.isFiniteB = false →
      bayesObjective o = (PyFloat.neginf, none)) ∧
    (∀ s, o = .ok s → s.isFiniteB = true → bayesObjective o = (s, none)) := by
  refine ⟨?_, ?_, ?_, ?_⟩
  · cases o with
    | error e => exact Or.inr rfl
    | ok s =>
      cases hs : s.isFiniteB with
      | true => exact Or.inl (by simp [bayesObjective, hs])
      | false => exact Or.inr (by simp [bayesObjective, hs])
  · rintro e rfl
    rfl
  · rintro s rfl hs
    simp [bayesObjective, hs]
  · rintro s rfl hs
    simp [bayesObjective, hs]

/-- Witness for `bayes_objective_never_raises`: a raising evaluation is
recorded and scored `-inf`. -/
theorem bayes_objective_never_raises_witness :
    bayesObjective (.error "bad params") = (PyFloat.neginf, some "bad params") :=
  (bayes_objective_never_raises (.error "bad params")).2.1 "bad params" rfl

/-! ## Optimizer.optimize_grid (lines 241-260) -/

/-- `itertools.product(*self.param_grid.values())` paired back with the
keys (lines 248-249): the first key varies slowest, the last fastest. -/
def productEnum : List (String × List PyVal) → List (List (String × PyVal))
  | [] => [[]]
  | (k, vals) :: rest =>
    (vals.map (fun v => (productEnum rest).map (fun tail => (k, v) :: tail))).flatten

/-- The records list built by the grid loop (lines 247-257): each
enumerated candidate is scored by `evalCand` (instantiate → backtest →
summary, returning `none` when that raises) and failing candidates are
dropped. -/
def gridRecords (grid : List (String × List PyVal))
    (evalCand : List (String × PyVal) → Option ℚ) :
    List (List (String × PyVal) × ℚ) :=
  (productEnum grid).filterMap (fun c => (evalCand c).map (fun m => (c, m)))

/-- Insert `x` into an ascending-sorted list, after any elements with an
equal key (the stable insertion step of an insertion sort). -/
def insertSorted {α : Type} (key : α → ℚ) (x : α) : List α → List α
  | [] => [x]
  | y :: ys => if key x < key y then x :: y :: ys else y :: insertSorted key x ys

/-- A stable ascending insertion sort: **one** admissible behavior of the
external argsort.  Numpy's argsort coincides with it under
`kind='stable'`/`kind='mergesort'` and, for the default
`kind='quicksort'` (introsort), only below introsort's small-sort
threshold; above it the default kind documents no tie order at all. -/
def sortAscStable {α : Type} (key : α → ℚ) (l : List α) : List α :=
  l.foldl (fun acc x => insertSorted key x acc) []

/-- The documented contract of numpy's `argsort` under **every** `kind`
(and all `sort_values` relies on): the output is a permutation of the
input, sorted ascending by the key.  No tie order is promised: the
default `kind='quicksort'` is documented as not stable. -/
def ArgsortContract {α : Type} (key : α → ℚ) (argsort : List α → List α) : Prop :=
  ∀ l : List α, (argsort l).Perm l ∧
    (argsort l).Pairwise (fun a b => key a ≤ key b)

/-- `DataFrame.sort_values(by=metric, ascending=False)`, per pandas
`nargsort`: reverse the items, argsort ascending, then reverse the
resulting order — parameterized by the external argsort kernel, about
which the program knows only `ArgsortContract`. -/
def pandasSortDescWith {α : Type} (argsort : List α → List α) (l : List α) :
    List α :=
  (argsort l.reverse).reverse

/-- `optimize_grid` (lines 241-260): raise when no candidate succeeded,
else sort the records by the metric, descending, with the given argsort
kernel standing for numpy's `kind='quicksort'` argsort. -/
def optimizeGridWith
    (argsort : List (List (String × PyVal) × ℚ) → List (List (String × PyVal) × ℚ))
    (grid : List (String × List PyVal))
    (evalCand : List (String × PyVal) → Option ℚ) :
    Except String (List (List (String × PyVal) × ℚ)) :=
  if (gridRecords grid evalCand).isEmpty then
    .error "No valid grid combinations"
  else .ok (pandasSortDescWith argsort (gridRecords grid evalCand))

theorem insertSorted_perm {α : Type} (key : α → ℚ) (x : α) (l : List α) :
    (insertSorted key x l).Perm (x :: l) := by
  induction l with
  | nil => exact List.Perm.refl _
  | cons y ys ih =>
    unfold insertSorted
    by_cases h : key x < key y
    · rw [if_pos h]
    · rw [if_neg h]
      exact (ih.cons y).trans (List.Perm.swap x y ys)

theorem insertSorted_sorted {α : Type} (key : α → ℚ) (x : α) (l : List α)
    (h : l.Pairwise (fun a b => key a ≤ key b)) :
    (insertSorted key x l).Pairwise (fun a b => key a ≤ key b) := by
  induction l with
  | nil => simp [insertSorted]
  | cons y ys ih =>
    rw [List.pairwise_cons] at h
    obtain ⟨hy, hys⟩ := h
    unfold insertSorted
    by_cases hxy : key x < key y
    · rw [if_pos hxy]
      refine List.Pairwise.cons ?_ (List.Pairwise.cons hy hys)
      intro b hb
      rcases List.mem_cons.mp hb with rfl | hb2
      · exact le_of_lt hxy
      · exact le_trans (le_of_lt hxy) (hy b hb2)
    · rw [if_neg hxy]
      refine List.Pairwise.cons ?_ (ih hys)
      intro b hb
      have hmem := (insertSorted_perm key x ys).mem_iff.mp hb
      rcases List.mem_cons.mp hmem with rfl | hb2
      · exact not_lt.mp hxy
      · exact hy b hb2

theorem insertSorted_filter {α : Type} (key : α → ℚ) (x : α) (l : List α) (m : ℚ)
    (hs : l.Pairwise (fun a b => key a ≤ key b)) :
    (insertSorted key x l).filter (fun a => decide (key a = m))
      = if key x = m then
          l.filter (fun a => decide (key a = m)) ++ [x]
        else l.filter (fun a => decide (key a = m)) := by
  induction l with
  | nil =>
    by_cases hx : key x = m <;> simp [insertSorted, List.filter, hx]
  | cons y ys ih =>
    rw [List.pairwise_cons] at hs
    obtain ⟨hy, hys⟩ := hs
    unfold insertSorted
    by_cases hxy : key x < key y
    · rw [if_pos hxy]
      by_cases hx : key x = m
      · have hnone : ∀ b ∈ y :: ys, ¬ decide (key b = m) = true := by
          intro b hb hbm
          rw [decide_eq_true_eq] at hbm
          have hyb : key y ≤ key b := by
            rcases List.mem_cons.mp hb with rfl | hb2
            · exact le_refl _
            · exact hy b hb2
          rw [hbm, ← hx] at hyb
          exact absurd hxy (not_lt.mpr hyb)
        rw [if_pos hx]
        rw [List.filter_cons_of_pos (by simpa using hx)]
        rw [List.filter_eq_nil_iff.mpr hnone]
        rfl
      · rw [if_neg hx]
        rw [List.filter_cons_of_neg (by simpa using hx)]
    · rw [if_neg hxy]
      have ihh := ih hys
      by_cases hx : key x = m
      · rw [if_pos hx] at ihh ⊢
        rw [List.filter_cons, List.filter_cons, ihh]
        by_cases hyq : decide (key y = m) = true
        · simp [hyq]
        · simp [hyq]
      · rw [if_neg hx] at ihh ⊢
        rw [List.filter_cons, List.filter_cons, ihh]

theorem foldl_insert_spec {α : Type} (key : α → ℚ) (l acc : List α)
    (hs : acc.Pairwise (fun a b => key a ≤ key b)) :
    (l.foldl (fun a x => insertSorted key x a) acc).Pairwise
        (fun a b => key a ≤ key b) ∧
    (l.foldl (fun a x => insertSorted key x a) acc).Perm (acc ++ l) ∧
    ∀ m : ℚ,
      (l.foldl (fun a x => insertSorted key x a) acc).filter
          (fun a => decide (key a = m))
        = acc.filter (fun a => decide (key a = m))
            ++ l.filter (fun a => decide (key a = m)) := by
  induction l generalizing acc with
  | nil => exact ⟨hs, by simp, fun m => by simp⟩
  | cons x xs ih =>
    have hs2 := insertSorted_sorted key x acc hs
    obtain ⟨hsort, hperm, hfil⟩ := ih (insertSorted key x acc) hs2
    refine ⟨hsort, ?_, ?_⟩
    · refine hperm.trans ?_
      refine ((insertSorted_perm key x acc).append_right xs).trans ?_
      exact List.perm_middle.symm
    · intro m
      rw [List.foldl_cons, hfil m, insertSorted_filter key x acc m hs]
      by_cases hx : key x = m
      · rw [if_pos hx, List.filter_cons_of_pos (by simpa using hx)]
        simp
      · rw [if_neg hx, List.filter_cons_of_neg (by simpa using hx)]

theorem sortAscStable_spec {α : Type} (key : α → ℚ) (l : List α) :
    (sortAscStable key l).Pairwise (fun a b => key a ≤ key b) ∧
    (sortAscStable key l).Perm l ∧
    ∀ m : ℚ, (sortAscStable key l).filter (fun a => decide (key a = m))
        = l.filter (fun a => decide (key a = m)) := by
  obtain ⟨h1, h2, h3⟩ := foldl_insert_spec key l [] List.Pairwise.nil
  exact ⟨h1, by simpa using h2, fun m => by simpa using h3 m⟩

/-- With a **stable** ascending kernel (numpy `kind='stable'`, or what
introsort happens to do below its small-sort threshold), the nargsort
reverse/argsort/reverse pipeline preserves enumeration order on metric
ties.  The code requests the default `kind='quicksort'`, which promises
no such kernel. -/
theorem pandasSortDescWith_stable_ties {α : Type} (key : α → ℚ) (l : List α)
    (m : ℚ) :
    (pandasSortDescWith (sortAscStable key) l).filter (fun a => decide (key a = m))
      = l.filter (fun a => decide (key a = m)) := by
  obtain ⟨-, -, hfil⟩ := sortAscStable_spec key l.reverse
  unfold pandasSortDescWith
  rw [List.filter_reverse, hfil m, List.filter_reverse, List.reverse_reverse]

/-- An anti-stable ascending insertion step: insert `x` **before** any
elements with an equal key. -/
def insertSortedAnti {α : Type} (key : α → ℚ) (x : α) : List α → List α
  | [] => [x]
  | y :: ys =>
    if key x ≤ key y then x :: y :: ys else y :: insertSortedAnti key x ys

/-- An anti-stable ascending insertion sort: another admissible behavior
of the external argsort under its documented contract (it reverses every
tie block relative to `sortAscStable`). -/
def sortAscAnti {α : Type} (key : α → ℚ) (l : List α) : List α :=
  l.foldl (fun acc x => insertSortedAnti key x acc) []

theorem insertSortedAnti_perm {α : Type} (key : α → ℚ) (x : α) (l : List α) :
    (insertSortedAnti key x l).Perm (x :: l) := by
  induction l with
  | nil => exact List.Perm.refl _
  | cons y ys ih =>
    unfold insertSortedAnti
    by_cases h : key x ≤ key y
    · rw [if_pos h]
    · rw [if_neg h]
      exact (ih.cons y).trans (List.Perm.swap x y ys)

theorem insertSortedAnti_sorted {α : Type} (key : α → ℚ) (x : α) (l : List α)
    (h : l.Pairwise (fun a b => key a ≤ key b)) :
    (insertSortedAnti key x l).Pairwise (fun a b => key a ≤ key b) := by
  induction l with
  | nil => simp [insertSortedAnti]
  | cons y ys ih =>
    rw [List.pairwise_cons] at h
    obtain ⟨hy, hys⟩ := h
    unfold insertSortedAnti
    by_cases hxy : key x ≤ key y
    · rw [if_pos hxy]
      refine List.Pairwise.cons ?_ (List.Pairwise.cons hy hys)
      intro b hb
      rcases List.mem_cons.mp hb with rfl | hb2
      · exact hxy
      · exact le_trans hxy (hy b hb2)
    · rw [if_neg hxy]
      refine List.Pairwise.cons ?_ (ih hys)
      intro b hb
      have hmem := (insertSortedAnti_perm key x ys).mem_iff.mp hb
      rcases List.mem_cons.mp hmem with rfl | hb2
      · exact le_of_lt (not_le.mp hxy)
      · exact hy b hb2

theorem sortAscStable_contract {α : Type} (key : α → ℚ) :
    ArgsortContract key (sortAscStable key) := by
  intro l
  obtain ⟨h1, h2, -⟩ := sortAscStable_spec key l
  exact ⟨h2, h1⟩

theorem sortAscAnti_contract {α : Type} (key : α → ℚ) :
    ArgsortContract key (sortAscAnti key) := by
  intro l
  suffices h : ∀ acc : List α, acc.Pairwise (fun a b => key a ≤ key b) →
      (l.foldl (fun a x => insertSortedAnti key x a) acc).Perm (acc ++ l) ∧
      (l.foldl (fun a x => insertSortedAnti key x a) acc).Pairwise
        (fun a b => key a ≤ key b) by
    obtain ⟨h1, h2⟩ := h [] List.Pairwise.nil
    exact ⟨by simpa using h1, h2⟩
  induction l with
  | nil => exact fun acc hs => ⟨by simp, hs⟩
  | cons x xs ih =>
    intro acc hs
    obtain ⟨hperm, hsort⟩ :=
      ih (insertSortedAnti key x acc) (insertSortedAnti_sorted key x acc hs)
    refine ⟨?_, hsort⟩
    refine hperm.trans ?_
    refine ((insertSortedAnti_perm key x acc).append_right xs).trans ?_
    exact List.perm_middle.symm

/-- The 20-candidate grid `{p: [0, 1, ..., 19]}` whose records all tie on
the metric: a results table past introsort's 16-element insertion-sort
cutoff, where the default quicksort documents no tie order. -/
def tieGrid : List (String × List PyVal) :=
  [("p", (List.range 20).map (fun i => PyVal.pint (i : ℤ)))]

/-- The records `optimize_grid` builds for `tieGrid` when every candidate
scores 0, in Cartesian-product enumeration order. -/
def tieRecords : List (List (String × PyVal) × ℚ) :=
  (List.range 20).map (fun i => ([("p", PyVal.pint (i : ℤ))], 0))

/-- C4 (code bug): `optimize_grid` sorts its table with
`sort_values(by=metric, ascending=False)` under the **default**
`kind='quicksort'`, whose documented contract (`ArgsortContract`) fixes
only that the output is an ascending permutation — numpy documents
quicksort as not stable, so no tie order is promised.  On the
20-way-tied table both the stable and the anti-stable insertion sort
satisfy that contract, yet through the nargsort reverse/argsort/reverse
pipeline one yields the records in enumeration order and the other in
reversed enumeration order.  The claim's earlier-enumerated-first
tie-break (the spec's explicit "stable sort" requirement) is therefore
not established by the code; it would need `kind='stable'`. -/
theorem grid_sort_tie_order_underdetermined :
    ArgsortContract (fun r : List (String × PyVal) × ℚ => r.2)
      (sortAscStable (fun r => r.2)) ∧
    ArgsortContract (fun r : List (String × PyVal) × ℚ => r.2)
      (sortAscAnti (fun r => r.2)) ∧
    optimizeGridWith (sortAscStable (fun r => r.2)) tieGrid (fun _ => some 0)
      = .ok tieRecords ∧
    optimizeGridWith (sortAscAnti (fun r => r.2)) tieGrid (fun _ => some 0)
      = .ok tieRecords.reverse ∧
    tieRecords.reverse ≠ tieRecords :=
  ⟨sortAscStable_contract _, sortAscAnti_contract _, rfl, rfl, by decide⟩

/-! ## Optimizer.best_params (lines 404-419) -/

/-- A cell of the results DataFrame row: either a native Python value or
a numpy scalar wrapping one (`hasattr(v, "item")`). -/
inductive PyCell where
  | native (v : PyObj)
  | npScalar (v : PyObj)
deriving Repr, DecidableEq

/-- `v = v.item() if hasattr(v, "item") else v` (lines 414-415). -/
def cellItem : PyCell → PyObj
  | .native v => v
  | .npScalar v => v

/-- Lines 414-417: unwrap a numpy scalar, then convert an integer-valued
float to an int (`isinstance(v, float) and v.is_integer()`; a non-finite
float is not integer-valued). -/
def coerceParam (c : PyCell) : PyObj :=
  match cellItem c with
  | .ofloat (.finite q) => if q.den = 1 then .oint q.num else .ofloat (.finite q)
  | v => v

/-- `best_params` (lines 404-419): one coerced value per `param_grid`
key, read from the selected row. -/
def bestParams (keys : List String) (row : String → PyCell) :
    List (String × PyObj) :=
  keys.map (fun k => (k, coerceParam (row k)))

/-- C10: `best_params` returns one value per parameter in the grid; numpy
scalars are unwrapped to native values (wrapping never changes the
result); and every float cell whose value is a whole number comes back as
the int with that value — in particular a real-kind parameter whose best
value is integral is returned as an int. -/
theorem best_params_native_ints (keys : List String) (row : String → PyCell) :
    (bestParams keys row).length = keys.length ∧
    (∀ k, k ∈ keys → (k, coerceParam (row k)) ∈ bestParams keys row) ∧
    (∀ v : PyObj, coerceParam (.npScalar v) = coerceParam (.native v)) ∧
    (∀ k (q : ℚ), cellItem (row k) = PyObj.ofloat (PyFloat.finite q) →
      q.den = 1 → coerceParam (row k) = PyObj.oint q.num) := by
  refine ⟨by simp [bestParams], ?_, fun v => rfl, ?_⟩
  · intro k hk
    exact List.mem_map_of_mem _ hk
  · intro k q hq hden
    unfold coerceParam
    rw [hq]
    simp [hden]

/-- Witness for `best_params_native_ints`: the numpy float 3.0 comes back
as the int 3. -/
theorem best_params_native_ints_witness :
    coerceParam ((fun _ => PyCell.npScalar (PyObj.ofloat (PyFloat.finite 3))) "a")
      = PyObj.oint (3 : ℚ).num :=
  (best_params_native_ints ["a"]
      (fun _ => PyCell.npScalar (PyObj.ofloat (PyFloat.finite 3)))).2.2.2
    "a" 3 rfl (by norm_num)

end TradingEnv
